import Mathlib

/-!
# Verification of the Learn_English playback-synchronization core

Shallow embedding of the subtitle-synchronized media player core:
* `SubtitleParser` (src/services/SubtitleParser.ts): cue lookup
  (`findIndexAtTime`), SRT parsing (`parseSRT`), timestamp
  parsing/formatting (`parseTimestamp` / `formatTimestamp`), `validate`;
* the Zustand media store (src/store/mediaStore.ts): playback-mode
  enable/disable operations, A/B points, segment-loop counters;
* the `useMediaSync` driver hook: the loop-control boundary branch and the
  shadowing pause-duration computation;
* `SubtitleWorkerManager` (src/services/SubtitleWorkerManager.ts):
  pending-request table and promise settlement.

JavaScript `number` is modelled by `ℚ` (exact arithmetic); `NaN` is modelled
explicitly where the source tests `isNaN`.  Fields named `end` in the source
are called `endTime` here because `end` is a Lean keyword.
-/

namespace LearnEnglish

/-- A subtitle cue as produced by `SubtitleParser`.  The source record also
carries language-separation fields (`textEn`, `textZh`, `languages`,
`detectedLanguages`, `primaryLanguage`); none of the verified claims concern
them, so they are omitted.  `endTime` embeds the source field `end`. -/
structure Cue where
  id : String
  index : Nat
  start : ℚ
  endTime : ℚ
  text : String
deriving DecidableEq, Repr

/-- JS array access `l[i]` for an `Int` index: negative indices (and
out-of-range ones) give `undefined`, modelled as `none`. -/
def listGetInt {α : Type} (l : List α) (i : Int) : Option α :=
  if i < 0 then none else l.get? i.toNat

/-- The binary-search loop of `SubtitleParser.findIndexAtTime`
(SubtitleParser.ts lines 330-358), as a fuel-indexed structural recursion.
The source iterates with inclusive bounds `left`/`right`; here `rexcl` is
the exclusive right bound (`rexcl = right + 1`), so the guard
`left <= right` is `left < rexcl` and `mid = Math.floor((left + right) / 2)`
is `(left + rexcl - 1) / 2`.  `result` records the last index visited with
`time >= cue.start` while moving right; it is what the source returns when
no containing cue is found (`// 如果没有完全匹配，返回最接近的`).  Every
iteration shrinks `rexcl - left` by at least one, so any
`fuel ≥ rexcl - left` computes the loop exactly (see
`binSearchGo_fuel_irrel`); `binSearchLoop` supplies `rexcl - left`. -/
def binSearchGo (cues : List Cue) (t : ℚ) : Nat → Nat → Nat → Int → Int
  | 0, _, _, result => result
  | fuel + 1, left, rexcl, result =>
    if left < rexcl then
      let mid := (left + rexcl - 1) / 2
      match cues.get? mid with
      | none => result
      | some cue =>
        if cue.start ≤ t ∧ t < cue.endTime then (mid : Int)
        else if t < cue.start then binSearchGo cues t fuel left mid result
        else binSearchGo cues t fuel (mid + 1) rexcl
          (if cue.start ≤ t then (mid : Int) else result)
    else result

/-- The binary search of `findIndexAtTime`, run to completion. -/
def binSearchLoop (cues : List Cue) (t : ℚ) (left rexcl : Nat) (result : Int) : Int :=
  binSearchGo cues t (rexcl - left) left rexcl result

/-- The hint fast path of `findIndexAtTime` (SubtitleParser.ts lines
307-328).  Returns `some r` when the fast path short-circuits with result
`r`, `none` when control falls through to the binary search. -/
def hintLookup (cues : List Cue) (t : ℚ) (hintIndex : Int) : Option Int :=
  if 0 ≤ hintIndex ∧ hintIndex < (cues.length : Int) then
    match listGetInt cues hintIndex with
    | none => none
    | some current =>
      if current.start ≤ t ∧ t < current.endTime then some hintIndex
      else
        let nextIndex := hintIndex + 1
        if nextIndex < (cues.length : Int) then
          match listGetInt cues nextIndex with
          | none => none
          | some next =>
            if next.start ≤ t ∧ t < next.endTime then some nextIndex
            else if current.endTime ≤ t ∧ t < next.start then some (-1)
            else none
        else none
  else none

/-- `SubtitleParser.findIndexAtTime(cues, time, hintIndex = -1)`
(SubtitleParser.ts lines 304-359). -/
def findIndexAtTime (cues : List Cue) (t : ℚ) (hintIndex : Int) : Int :=
  if cues.length = 0 then -1
  else
    match hintLookup cues t hintIndex with
    | some r => r
    | none => binSearchLoop cues t 0 cues.length (-1)

/-! ## SRT parsing and timestamps (src/services/SubtitleParser.ts)

Strings are processed as `List Char`.  JavaScript regular expressions are
embedded as deterministic matchers; each matcher's doc comment names the
source regex. -/

/-- The whitespace class `\s` restricted to the characters that occur in
subtitle text (space, tab, carriage return, newline). -/
def isJsWs (c : Char) : Bool := c = ' ' ∨ c = '\t' ∨ c = '\r' ∨ c = '\n'

/-- `String.prototype.trim()`. -/
def jsTrim (l : List Char) : List Char :=
  ((l.dropWhile isJsWs).reverse.dropWhile isJsWs).reverse

/-- A decimal digit (`\d`). -/
def isDigitChar (c : Char) : Bool := '0' ≤ c ∧ c ≤ '9'

/-- Numeric value of a digit character. -/
def digitVal (c : Char) : Nat := c.toNat - '0'.toNat

/-- Index of the last `'\n'` in `l`, if any. -/
def lastNlIdx (l : List Char) : Option Nat :=
  ((l.enum.filter (fun p => p.2 = '\n')).map Prod.fst).getLast?

/-- Worker for `splitBlocks`; `fuel ≥ l.length` computes the split exactly
(every step consumes at least one character). -/
def splitBlocksGo : Nat → List Char → List Char → List (List Char)
  | _, cur, [] => [cur.reverse]
  | 0, cur, l => [cur.reverse ++ l]
  | fuel + 1, cur, c :: rest =>
    if c = '\n' then
      match lastNlIdx (rest.takeWhile isJsWs) with
      | some k => cur.reverse :: splitBlocksGo fuel [] (rest.drop (k + 1))
      | none => splitBlocksGo fuel ('\n' :: cur) rest
    else splitBlocksGo fuel (c :: cur) rest

/-- `text.split(/\n\s*\n/)`: a separator is a newline, greedy whitespace,
then a newline — i.e. a whitespace run containing at least two newlines,
matched from its first newline to its last. -/
def splitBlocks (l : List Char) : List (List Char) :=
  splitBlocksGo l.length [] l

/-- `block.split('\n')`. -/
def splitOnNl : List Char → List (List Char)
  | [] => [[]]
  | c :: rest =>
    if c = '\n' then [] :: splitOnNl rest
    else
      match splitOnNl rest with
      | [] => [[c]]
      | h :: t => (c :: h) :: t

/-- `lines.join('\n')`. -/
def joinNl : List (List Char) → List Char
  | [] => []
  | [x] => x
  | x :: xs => x ++ '\n' :: joinNl xs

/-- Leading decimal digit run as a number, `none` when there is none. -/
def parseDigits (l : List Char) : Option Nat :=
  let ds := l.takeWhile isDigitChar
  if ds.isEmpty then none
  else some (ds.foldl (fun acc c => 10 * acc + digitVal c) 0)

/-- `parseInt(s, 10)` on an already-trimmed string; `none` is `NaN`. -/
def jsParseInt (l : List Char) : Option Int :=
  match l with
  | '-' :: rest => (parseDigits rest).map (fun n => -(n : Int))
  | '+' :: rest => (parseDigits rest).map (fun n => (n : Int))
  | _ => (parseDigits l).map (fun n => (n : Int))

/-- Decimal digits of `n` (JS `String(n)` for a non-negative integer);
fuel-based on `n`. -/
def natToCharsGo : Nat → Nat → List Char
  | 0, _ => []
  | fuel + 1, n =>
    if n < 10 then [Nat.digitChar n]
    else natToCharsGo fuel (n / 10) ++ [Nat.digitChar (n % 10)]

/-- JS `String(n)` for an integer. -/
def intToChars (i : Int) : List Char :=
  if i < 0 then '-' :: natToCharsGo (i.natAbs + 1) i.natAbs
  else natToCharsGo (i.toNat + 1) i.toNat

/-- Total seconds of a parsed `HH:MM:SS.mmm` timestamp.  The source
computes `hours * 3600 + minutes * 60 + seconds + milliseconds / 1000`;
the value is assembled here as one normalized rational so that it reduces
inside the kernel — `timestampVal_eq` below proves it equal to the
source's expression. -/
def timestampVal (h m s ms : Nat) : ℚ :=
  mkRat (3600000 * h + 60000 * m + 1000 * s + ms) 1000

/-- Match `(\d{2}):(\d{2}):(\d{2})\.(\d{3})` at the head of the list,
returning the four captured numbers. -/
def matchTSDotAt (l : List Char) : Option (Nat × Nat × Nat × Nat) :=
  match l with
  | h1 :: h2 :: c1 :: m1 :: m2 :: c2 :: s1 :: s2 :: d :: x1 :: x2 :: x3 :: _ =>
    if isDigitChar h1 ∧ isDigitChar h2 ∧ c1 = ':' ∧ isDigitChar m1 ∧ isDigitChar m2 ∧
        c2 = ':' ∧ isDigitChar s1 ∧ isDigitChar s2 ∧ d = '.' ∧
        isDigitChar x1 ∧ isDigitChar x2 ∧ isDigitChar x3 then
      some (10 * digitVal h1 + digitVal h2, 10 * digitVal m1 + digitVal m2,
            10 * digitVal s1 + digitVal s2,
            100 * digitVal x1 + 10 * digitVal x2 + digitVal x3)
    else none
  | _ => none

/-- `timestamp.match(/(\d{2}):(\d{2}):(\d{2})\.(\d{3})/)`: leftmost match. -/
def searchTSDot : List Char → Option (Nat × Nat × Nat × Nat)
  | [] => none
  | c :: rest =>
    match matchTSDotAt (c :: rest) with
    | some r => some r
    | none => searchTSDot rest

/-- `timestamp.replace(',', '.')` — JS `replace` with a string pattern
replaces only the first occurrence. -/
def replaceFirstComma : List Char → List Char
  | [] => []
  | c :: rest => if c = ',' then '.' :: rest else c :: replaceFirstComma rest

/-- `SubtitleParser.parseTimestamp` (SubtitleParser.ts lines 254-268):
normalize the comma to a dot, match `HH:MM:SS.mmm`, and convert to total
seconds; an unmatched timestamp yields `0`. -/
def parseTimestamp (l : List Char) : ℚ :=
  match searchTSDot (replaceFirstComma l) with
  | none => 0
  | some (h, m, s, ms) => timestampVal h m s ms

/-- Match the SRT time-range pattern
`(\d{2}:\d{2}:\d{2},\d{3})\s*-->\s*(\d{2}:\d{2}:\d{2},\d{3})` at the head
of the list, returning the two captured timestamp strings. -/
def matchTimeRangeAt (l : List Char) : Option (List Char × List Char) :=
  match l with
  | h1 :: h2 :: c1 :: m1 :: m2 :: c2 :: s1 :: s2 :: d :: x1 :: x2 :: x3 :: rest =>
    if isDigitChar h1 ∧ isDigitChar h2 ∧ c1 = ':' ∧ isDigitChar m1 ∧ isDigitChar m2 ∧
        c2 = ':' ∧ isDigitChar s1 ∧ isDigitChar s2 ∧ d = ',' ∧
        isDigitChar x1 ∧ isDigitChar x2 ∧ isDigitChar x3 then
      match (rest.dropWhile isJsWs) with
      | '-' :: '-' :: '>' :: rest2 =>
        match matchTSDotComma (rest2.dropWhile isJsWs) with
        | some cap2 => some ([h1, h2, c1, m1, m2, c2, s1, s2, d, x1, x2, x3], cap2)
        | none => none
      | _ => none
    else none
  | _ => none
where
  /-- The second capture `(\d{2}:\d{2}:\d{2},\d{3})`. -/
  matchTSDotComma (l : List Char) : Option (List Char) :=
    match l with
    | h1 :: h2 :: c1 :: m1 :: m2 :: c2 :: s1 :: s2 :: d :: x1 :: x2 :: x3 :: _ =>
      if isDigitChar h1 ∧ isDigitChar h2 ∧ c1 = ':' ∧ isDigitChar m1 ∧ isDigitChar m2 ∧
          c2 = ':' ∧ isDigitChar s1 ∧ isDigitChar s2 ∧ d = ',' ∧
          isDigitChar x1 ∧ isDigitChar x2 ∧ isDigitChar x3 then
        some [h1, h2, c1, m1, m2, c2, s1, s2, d, x1, x2, x3]
      else none
    | _ => none

/-- `secondLine.match(/(...),... --> (...)/)`: leftmost match of the SRT
time-range regex. -/
def searchTimeRange : List Char → Option (List Char × List Char)
  | [] => none
  | c :: rest =>
    match matchTimeRangeAt (c :: rest) with
    | some r => some r
    | none => searchTimeRange rest

/-- `SubtitleParser.parseSRT` (SubtitleParser.ts lines 77-135).  The
language-separation fields of the source cue (`textEn` etc.) are omitted,
as is the `languages` computation — no claim concerns them.  A cue's
`index` is its block position `i` (blocks that fail to parse still consume
an index, as in the source `for` loop). -/
def parseSRT (text : String) : List Cue :=
  let blocks := (splitBlocks text.data).filter (fun b => !(jsTrim b).isEmpty)
  blocks.enum.filterMap fun p =>
    let lines := (splitOnNl p.2).map jsTrim
    match lines with
    | l0 :: l1 :: l2 :: rest =>
      if l0.isEmpty then none
      else
        match jsParseInt l0 with
        | none => none
        | some index =>
          if l1.isEmpty then none
          else
            match searchTimeRange l1 with
            | none => none
            | some (cap1, cap2) =>
              some { id := String.mk ("srt-".data ++ intToChars index)
                     index := p.1
                     start := parseTimestamp cap1
                     endTime := parseTimestamp cap2
                     text := String.mk (joinNl (l2 :: rest)) }
    | _ => none

/-- `SubtitleParser.validate` (SubtitleParser.ts lines 287-298): advisory
well-formedness check (non-empty id/text, `start ≥ 0`, `end > start`). -/
def validate (cues : List Cue) : Bool :=
  if cues.length = 0 then false
  else
    cues.all fun cue =>
      !cue.id.isEmpty && !(decide (cue.start < 0)) &&
      !(decide (cue.endTime ≤ cue.start)) && !cue.text.isEmpty

/-- The two timestamp output formats of `formatTimestamp`. -/
inductive TSFormat where
  | srt : TSFormat
  | vtt : TSFormat
deriving DecidableEq, Repr

/-- The separator: `,` for SRT, `.` for VTT. -/
def sepChar : TSFormat → Char
  | .srt => ','
  | .vtt => '.'

/-- `n.toString().padStart(2, '0')` for `n < 100`. -/
def pad2 (n : Nat) : List Char := [Nat.digitChar (n / 10), Nat.digitChar (n % 10)]

/-- `n.toString().padStart(3, '0')` for `n < 1000`. -/
def pad3 (n : Nat) : List Char :=
  [Nat.digitChar (n / 100), Nat.digitChar (n / 10 % 10), Nat.digitChar (n % 10)]

/-- JS `Math.trunc`. -/
def jsTrunc (q : ℚ) : Int := if q < 0 then -(Rat.floor (-q)) else Rat.floor q

/-- The JS remainder `a % b` (truncated division; for the non-negative
operands arising in `formatTimestamp` it coincides with floor division). -/
def jsMod (a b : ℚ) : ℚ := a - b * (jsTrunc (a / b) : ℚ)

/-- `SubtitleParser.formatTimestamp` (SubtitleParser.ts lines 273-282);
`Math.floor` on a rational is `Rat.floor`.  The `.toNat` coercions are
exact for the non-negative times the claims quantify over. -/
def formatTimestamp (seconds : ℚ) (fmt : TSFormat) : List Char :=
  let hours := (Rat.floor (seconds / 3600)).toNat
  let minutes := (Rat.floor (jsMod seconds 3600 / 60)).toNat
  let secs := (Rat.floor (jsMod seconds 60)).toNat
  let ms := (Rat.floor (jsMod seconds 1 * 1000)).toNat
  pad2 hours ++ ':' :: pad2 minutes ++ ':' :: pad2 secs ++ sepChar fmt :: pad3 ms

/-- A well-formed `HH:MM:SS(.|,)mmm` timestamp string, rendered from its
field values (the claim's domain: `h < 100`, `m < 60`, `s < 60`,
`ms < 1000`). -/
def renderTS (fmt : TSFormat) (h m s ms : Nat) : List Char :=
  pad2 h ++ ':' :: pad2 m ++ ':' :: pad2 s ++ sepChar fmt :: pad3 ms

/-- `cues[i].start <= t < cues[i].end` — cue `c` is active at time `t`. -/
def ContainsTime (c : Cue) (t : ℚ) : Prop := c.start ≤ t ∧ t < c.endTime

instance (c : Cue) (t : ℚ) : Decidable (ContainsTime c t) := by
  unfold ContainsTime; infer_instance

/-- The cue list is sorted by `start` (the spec's production invariant
"cues are produced in ascending `start` order"). -/
def SortedByStart (cues : List Cue) : Prop :=
  List.Pairwise (fun a b => a.start ≤ b.start) cues

/-- A well-formed cue list: positive-length, non-overlapping cues in
order.  This is the spec's cue-list invariant together with hard
`end > start` enforcement. -/
def ValidCues (cues : List Cue) : Prop :=
  (∀ c ∈ cues, c.start < c.endTime) ∧
  List.Pairwise (fun a b => a.endTime ≤ b.start) cues

instance (cues : List Cue) : Decidable (SortedByStart cues) := by
  unfold SortedByStart
  infer_instance

instance (cues : List Cue) : Decidable (ValidCues cues) := by
  unfold ValidCues
  infer_instance

/-- Example cue used by the concrete witnesses: time range `[0, 10)`.
Together with `cueB` (`[20, 30)`) it forms a sorted cue list with a silent
gap `[10, 20)` between the cues. -/
def cueA : Cue := { id := "a", index := 0, start := 0, endTime := 10, text := "x" }

/-- Second example cue (`[20, 30)`); see `cueA`. -/
def cueB : Cue := { id := "b", index := 1, start := 20, endTime := 30, text := "y" }

/-! ## The media store (src/store/mediaStore.ts)

The Zustand store state.  Pure-display preferences (`volume`,
`playbackRate`, `videoFit`, `subtitleConfig`, `showInlineSubtitles`,
`duration`, `playerRef`) are omitted: no verified claim concerns them and
no modelled operation reads them.  `pointA`/`pointB` are
`number | null` in the source, modelled as `Option ℚ`. -/
structure MediaState where
  currentTime : ℚ
  playing : Bool
  subtitles : List Cue
  activeIndex : Int
  activeWordIndex : Int
  loopEnabled : Bool
  loopStart : ℚ
  loopEnd : ℚ
  segmentPlayEnabled : Bool
  segmentPlayEnd : ℚ
  segmentLoopEnabled : Bool
  segmentLoopTotal : Int
  segmentLoopCurrent : Int
  segmentLoopIndex : Int
  abRepeatEnabled : Bool
  pointA : Option ℚ
  pointB : Option ℚ
  shadowingEnabled : Bool
  shadowingPauseFactor : ℚ
deriving DecidableEq, Repr

/-- The `initialState` object of mediaStore.ts (modelled fields only).
`shadowingPauseFactor` is 1.0 in the source. -/
def initialState : MediaState where
  currentTime := 0
  playing := false
  subtitles := []
  activeIndex := -1
  activeWordIndex := -1
  loopEnabled := false
  loopStart := 0
  loopEnd := 0
  segmentPlayEnabled := false
  segmentPlayEnd := 0
  segmentLoopEnabled := false
  segmentLoopTotal := 3
  segmentLoopCurrent := 0
  segmentLoopIndex := -1
  abRepeatEnabled := false
  pointA := none
  pointB := none
  shadowingEnabled := false
  shadowingPauseFactor := 1

/-- A JavaScript `number` argument that may be `NaN` (the store's point
setters test `isNaN(time)`). -/
inductive JSNum where
  | nan : JSNum
  | num : ℚ → JSNum

/-- `disableLoop()` (mediaStore.ts lines 247-254). -/
def disableLoop (s : MediaState) : MediaState :=
  { s with loopEnabled := false, loopStart := 0, loopEnd := 0 }

/-- `stopSegmentLoop()` (mediaStore.ts lines 327-338). -/
def stopSegmentLoop (s : MediaState) : MediaState :=
  { s with segmentLoopEnabled := false, segmentLoopTotal := 3,
           segmentLoopCurrent := 0, segmentLoopIndex := -1,
           loopStart := 0, loopEnd := 0 }

/-- `disableABRepeat()` (mediaStore.ts lines 510-513). -/
def disableABRepeat (s : MediaState) : MediaState :=
  { s with abRepeatEnabled := false }

/-- `disableShadowing()` (mediaStore.ts lines 544-547). -/
def disableShadowing (s : MediaState) : MediaState :=
  { s with shadowingEnabled := false }

/-- `incrementLoopCount()` (mediaStore.ts lines 340-343). -/
def incrementLoopCount (s : MediaState) : MediaState :=
  { s with segmentLoopCurrent := s.segmentLoopCurrent + 1 }

/-- `enableLoop(start, end)` (mediaStore.ts lines 232-245): conditionally
disables the other modes, then switches the simple loop on. -/
def enableLoop (a b : ℚ) (s : MediaState) : MediaState :=
  let s := if s.segmentLoopEnabled then stopSegmentLoop s else s
  let s := if s.abRepeatEnabled then disableABRepeat s else s
  let s := if s.shadowingEnabled then disableShadowing s else s
  { s with loopEnabled := true, loopStart := a, loopEnd := b }

/-- `startSegmentLoop(start, end, count, index)` (mediaStore.ts lines
291-325).  The initial `player.seekTo(start)` is a side effect on the
external player and does not change the store state. -/
def startSegmentLoop (a b : ℚ) (count : Int) (index : Int) (s : MediaState) : MediaState :=
  let s := if s.loopEnabled then disableLoop s else s
  let s := if s.segmentPlayEnabled then { s with segmentPlayEnabled := false } else s
  let s := if s.abRepeatEnabled then disableABRepeat s else s
  let s := if s.shadowingEnabled then disableShadowing s else s
  { s with segmentLoopEnabled := true, segmentLoopTotal := count,
           segmentLoopCurrent := 0, segmentLoopIndex := index,
           loopStart := a, loopEnd := b, currentTime := a,
           playing := s.playing }

/-- `setPointA(time)` (mediaStore.ts lines 470-477): rejects `NaN` and
negative times, otherwise records point A. -/
def setPointA (time : JSNum) (s : MediaState) : MediaState :=
  match time with
  | .nan => s
  | .num t => if t < 0 then s else { s with pointA := some t }

/-- `setPointB(time)` (mediaStore.ts lines 479-493): rejects `NaN` and
negative times; records point B only when point A is set and `t > pointA`.
It does not touch `abRepeatEnabled`. -/
def setPointB (time : JSNum) (s : MediaState) : MediaState :=
  match time with
  | .nan => s
  | .num t =>
    if t < 0 then s
    else
      match s.pointA with
      | some a => if a < t then { s with pointB := some t } else s
      | none => s

/-- `enableABRepeat()` (mediaStore.ts lines 495-508): only acts when both
points are set and `pointB > pointA`. -/
def enableABRepeat (s : MediaState) : MediaState :=
  match s.pointA, s.pointB with
  | some a, some b =>
    if a < b then
      let s := if s.segmentLoopEnabled then stopSegmentLoop s else s
      let s := if s.loopEnabled then disableLoop s else s
      let s := if s.shadowingEnabled then disableShadowing s else s
      { s with abRepeatEnabled := true }
    else s
  | _, _ => s

/-- `enableShadowing()` (mediaStore.ts lines 534-542). -/
def enableShadowing (s : MediaState) : MediaState :=
  let s := if s.segmentLoopEnabled then stopSegmentLoop s else s
  let s := if s.loopEnabled then disableLoop s else s
  let s := if s.abRepeatEnabled then disableABRepeat s else s
  { s with shadowingEnabled := true }

/-- Number of simultaneously active playback modes among the four modes of
the spec's `PlaybackMode` variant (`SimpleLoop`, `SegmentLoop`, `ABRepeat`,
`Shadowing`). -/
def activeModeCount (s : MediaState) : Nat :=
  (if s.loopEnabled then 1 else 0) + (if s.segmentLoopEnabled then 1 else 0) +
  (if s.abRepeatEnabled then 1 else 0) + (if s.shadowingEnabled then 1 else 0)

/-! ## The synchronization driver (useMediaSync hook) -/

/-- Playback-control side effects issued to the external player. -/
inductive Effect where
  | seekTo : ℚ → Effect
  | pause : Effect
  | play : Effect
deriving DecidableEq, Repr

/-- `setPlaying(playing)` (mediaStore.ts lines 171-173). -/
def setPlaying (p : Bool) (s : MediaState) : MediaState :=
  { s with playing := p }

/-- `playNextSegment()` (mediaStore.ts lines 345-404), used by the driver
when a finished segment loop auto-advances.  Returns the new store state
together with the player side effects issued. -/
def playNextSegment (s : MediaState) : MediaState × List Effect :=
  if s.subtitles.length = 0 then (s, [])
  else
    let currentIndex : Int := if s.segmentLoopIndex ≠ -1 then s.segmentLoopIndex else s.activeIndex
    let nextIndex := currentIndex + 1
    if (s.subtitles.length : Int) ≤ nextIndex then (s, [])
    else
      match listGetInt s.subtitles nextIndex with
      | none => (s, [])
      | some nextCue =>
        if s.segmentLoopIndex ≠ -1 then
          let s₁ := setPlaying true s
          let s₂ := { s₁ with segmentLoopEnabled := false, segmentLoopCurrent := 0 }
          (startSegmentLoop nextCue.start nextCue.endTime s₂.segmentLoopTotal nextIndex s₂,
            [Effect.seekTo nextCue.start, Effect.play, Effect.seekTo nextCue.start])
        else
          ({ s with activeIndex := nextIndex }, [Effect.seekTo nextCue.start])

/-- The `===== 循环控制 =====` section of `useMediaSync.syncLoop`
(lines 211-254 of the hook): A/B repeat takes precedence over the
segment-loop boundary, which takes precedence over the simple loop.
`autoPlayNext` is `plugin?.settings.autoPlayNext ?? false`. -/
def loopControl (autoPlayNext : Bool) (currentTime : ℚ) (s : MediaState) :
    MediaState × List Effect :=
  match s.pointA, s.pointB with
  | some a, some b =>
    if s.abRepeatEnabled then
      if b ≤ currentTime then (s, [Effect.seekTo a])
      else if currentTime < a then (s, [Effect.seekTo a])
      else (s, [])
    else loopControlTail autoPlayNext currentTime s
  | _, _ => loopControlTail autoPlayNext currentTime s
where
  /-- The `else if` chain after the A/B-repeat guard. -/
  loopControlTail (autoPlayNext : Bool) (currentTime : ℚ) (s : MediaState) :
      MediaState × List Effect :=
    if s.segmentLoopEnabled ∧ s.loopEnd ≤ currentTime then
      if s.segmentLoopCurrent < s.segmentLoopTotal - 1 then
        (incrementLoopCount s, [Effect.seekTo s.loopStart])
      else if autoPlayNext then playNextSegment s
      else (stopSegmentLoop s, [Effect.pause])
    else if s.loopEnabled ∧ s.loopEnd ≤ currentTime then
      (s, [Effect.seekTo s.loopStart])
    else (s, [])

/-- `Math.abs` on exact rationals. -/
def jsAbs (q : ℚ) : ℚ := if q < 0 then -q else q

/-- `Math.max` on exact rationals. -/
def jsMax (a b : ℚ) : ℚ := if a ≤ b then b else a

/-- The `dynamicPauseDuration` computation of the shadowing branch of
`useMediaSync.syncLoop` (hook lines 169-178), with `d` the sentence
duration `cue.end - cue.start` in seconds.  The non-integer literals
`1.1` and `0.01` are written `mkRat 11 10` and `mkRat 1 100`. -/
def dynamicPauseDuration (pauseFactor d : ℚ) : ℚ :=
  if jsAbs (pauseFactor - mkRat 11 10) < mkRat 1 100 then
    d * 1000 * mkRat 11 10 + 1000
  else if pauseFactor ≤ 1 then jsMax 1000 (d * 1000 * pauseFactor)
  else jsMax 1500 (d * 1000 * pauseFactor)

/-- Modelled from the spec: the resume-timer duration as §4.5 of the spec
words it — the adaptive tier applies exactly when `pauseFactor == 1.1`.
Kept separate from `dynamicPauseDuration` (the source computation) to
compare the two. -/
def specPauseDuration (pauseFactor d : ℚ) : ℚ :=
  if pauseFactor = mkRat 11 10 then d * 1000 * mkRat 11 10 + 1000
  else if pauseFactor ≤ 1 then jsMax 1000 (d * 1000 * pauseFactor)
  else jsMax 1500 (d * 1000 * pauseFactor)

/-- The driver's per-tick shadowing refs (`isShadowingWaitingRef`,
`lastShadowingSubtitleIndexRef`). -/
structure ShadowRefs where
  isWaiting : Bool
  lastIndex : Int
deriving DecidableEq, Repr

/-- The shadowing trigger of `useMediaSync.syncLoop` (hook lines 153-202):
when shadowing is enabled, the session is not blocked, the active cue has
not been handled yet and playback is within `0.1 s` of the cue's end, the
driver pauses and schedules a resume timer; this function returns the
scheduled duration in milliseconds (`none` when nothing is scheduled).
`0.1` is written `mkRat 1 10`. -/
def shadowingCheck (isBlocked : Bool) (currentTime : ℚ) (s : MediaState)
    (refs : ShadowRefs) : Option ℚ :=
  if ¬isBlocked ∧ s.shadowingEnabled ∧ 0 ≤ s.activeIndex ∧
      s.activeIndex < (s.subtitles.length : Int) then
    match listGetInt s.subtitles s.activeIndex with
    | none => none
    | some cue =>
      if ¬refs.isWaiting ∧ refs.lastIndex ≠ s.activeIndex ∧
          cue.endTime - mkRat 1 10 ≤ currentTime then
        some (dynamicPauseDuration s.shadowingPauseFactor (cue.endTime - cue.start))
      else none
  else none

/-! ## The worker offload manager (src/services/SubtitleWorkerManager.ts)

The manager keeps a `pendingRequests` table keyed by request id; each
`parse` call creates a promise.  A promise's settlement state is tracked
here explicitly (`PStatus`): the source settles a promise only by calling
the `resolve`/`reject` closures stored in the table. -/

/-- Settlement state of one `parse` promise. -/
inductive PStatus where
  | unsettled : PStatus
  | resolved : PStatus
  | rejected : PStatus
deriving DecidableEq, Repr

/-- The manager's observable state: whether the worker thread is alive,
the ids in the `pendingRequests` map, and each issued request's promise
status (association list keyed by request id). -/
structure MgrState where
  workerAlive : Bool
  pending : List Nat
  status : List (Nat × PStatus)
  requestIdCounter : Nat
deriving DecidableEq, Repr

/-- Settle the promise of request `id` (invoke its stored `resolve` or
`reject` closure). -/
def settle (id : Nat) (st : PStatus) (l : List (Nat × PStatus)) : List (Nat × PStatus) :=
  l.map fun p => if p.1 = id then (p.1, st) else p

/-- `parse(text, ...)` when the worker is alive (SubtitleWorkerManager.ts
lines 130-163): allocate an id, register the pending request, post the
message.  (The degraded synchronous path does not create a pending
request.) -/
def parseRequest (m : MgrState) : MgrState :=
  if m.workerAlive then
    { m with pending := m.requestIdCounter :: m.pending,
             status := (m.requestIdCounter, PStatus.unsettled) :: m.status,
             requestIdCounter := m.requestIdCounter + 1 }
  else m

/-- `handleMessage` for a `result` response (lines 93-99): resolves the
request if it is still in the table, otherwise a warning only. -/
def handleResult (id : Nat) (m : MgrState) : MgrState :=
  if id ∈ m.pending then
    { m with status := settle id PStatus.resolved m.status,
             pending := m.pending.filter (· ≠ id) }
  else m

/-- `handleMessage` for an `error` response (lines 101-104). -/
def handleErrorResponse (id : Nat) (m : MgrState) : MgrState :=
  if id ∈ m.pending then
    { m with status := settle id PStatus.rejected m.status,
             pending := m.pending.filter (· ≠ id) }
  else m

/-- The 30-second timeout callback of `parse` (lines 156-161): rejects the
request only if it is still in the table. -/
def timeoutFire (id : Nat) (m : MgrState) : MgrState :=
  if id ∈ m.pending then
    { m with status := settle id PStatus.rejected m.status,
             pending := m.pending.filter (· ≠ id) }
  else m

/-- `handleError` (worker-level error, lines 117-125): rejects every
pending request and clears the table. -/
def handleWorkerError (m : MgrState) : MgrState :=
  { m with status := m.pending.foldl (fun acc id => settle id PStatus.rejected acc) m.status,
           pending := [] }

/-- `terminate()` (SubtitleWorkerManager.ts lines 175-182): terminates the
worker and clears `pendingRequests`.  Note that it does not invoke the
stored `reject` closures — promise statuses are left untouched. -/
def terminate (m : MgrState) : MgrState :=
  { m with workerAlive := false, pending := [] }

/-- Status of request `id` as recorded in the association list. -/
def statusOf (m : MgrState) (id : Nat) : Option PStatus :=
  (m.status.find? (fun p => p.1 = id)).map Prod.snd

/-! ## Theorems -/

set_option maxRecDepth 10000

/-- `enableLoop` always ends with exactly the simple loop active. -/
theorem enableLoop_count (a b : ℚ) (s : MediaState) :
    activeModeCount (enableLoop a b s) = 1 := by
  obtain ⟨ct, pl, subs, ai, awi, le, ls, lE, spe, spEnd, sle, slt, slc, sli, abr, pA, pB, she, spf⟩ := s
  cases le <;> cases sle <;> cases abr <;> cases she <;>
    simp [enableLoop, stopSegmentLoop, disableABRepeat, disableShadowing, activeModeCount]

/-- `startSegmentLoop` always ends with exactly the segment loop active. -/
theorem startSegmentLoop_count (a b : ℚ) (count index : Int) (s : MediaState) :
    activeModeCount (startSegmentLoop a b count index s) = 1 := by
  obtain ⟨ct, pl, subs, ai, awi, le, ls, lE, spe, spEnd, sle, slt, slc, sli, abr, pA, pB, she, spf⟩ := s
  cases le <;> cases spe <;> cases abr <;> cases she <;>
    simp [startSegmentLoop, disableLoop, disableABRepeat, disableShadowing, activeModeCount]

/-- `enableShadowing` always ends with exactly shadowing active. -/
theorem enableShadowing_count (s : MediaState) :
    activeModeCount (enableShadowing s) = 1 := by
  obtain ⟨ct, pl, subs, ai, awi, le, ls, lE, spe, spEnd, sle, slt, slc, sli, abr, pA, pB, she, spf⟩ := s
  cases le <;> cases sle <;> cases abr <;>
    simp [enableShadowing, stopSegmentLoop, disableLoop, disableABRepeat, activeModeCount]

/-- `enableABRepeat` preserves the exactly-one-mode invariant: with valid
points it switches to A/B repeat exclusively, otherwise it is a no-op. -/
theorem enableABRepeat_count (s : MediaState) (h : activeModeCount s = 1) :
    activeModeCount (enableABRepeat s) = 1 := by
  obtain ⟨ct, pl, subs, ai, awi, le, ls, lE, spe, spEnd, sle, slt, slc, sli, abr, pA, pB, she, spf⟩ := s
  rcases pA with _ | a' <;> rcases pB with _ | b' <;>
    simp only [enableABRepeat] <;> try exact h
  split
  · cases le <;> cases sle <;> cases she <;>
      simp [stopSegmentLoop, disableLoop, disableShadowing, activeModeCount]
  · exact h

/-- C3: In a store state with exactly one playback mode active, each
mode-enable operation (`enableLoop`, `startSegmentLoop`, `enableABRepeat`,
`enableShadowing`) leaves exactly one of the four modes (`SimpleLoop`,
`SegmentLoop`, `ABRepeat`, `Shadowing`) active: every other active mode is
disabled by the enable operation (`enableABRepeat` with unset or invalid
points is a no-op and keeps the already-active single mode). -/
theorem mode_enable_exclusive (s : MediaState) (a b : ℚ) (count index : Int)
    (h : activeModeCount s = 1) :
    activeModeCount (enableLoop a b s) = 1 ∧
    activeModeCount (startSegmentLoop a b count index s) = 1 ∧
    activeModeCount (enableABRepeat s) = 1 ∧
    activeModeCount (enableShadowing s) = 1 :=
  ⟨enableLoop_count a b s, startSegmentLoop_count a b count index s,
   enableABRepeat_count s h, enableShadowing_count s⟩

/-- C3 witness: enabling shadowing (and the other modes) from a state in
which the simple loop is active leaves exactly one mode active. -/
theorem mode_enable_exclusive_witness :
    activeModeCount (enableLoop 0 1 initialState) = 1 ∧
    activeModeCount (enableLoop 2 3 (enableLoop 0 1 initialState)) = 1 ∧
    activeModeCount (startSegmentLoop 0 1 3 0 (enableLoop 0 1 initialState)) = 1 ∧
    activeModeCount (enableABRepeat (enableLoop 0 1 initialState)) = 1 ∧
    activeModeCount (enableShadowing (enableLoop 0 1 initialState)) = 1 :=
  ⟨by decide,
   (mode_enable_exclusive (enableLoop 0 1 initialState) 2 3 3 0 (by decide)).1,
   (mode_enable_exclusive (enableLoop 0 1 initialState) 2 3 3 0 (by decide)).2.1,
   (mode_enable_exclusive (enableLoop 0 1 initialState) 2 3 3 0 (by decide)).2.2.1,
   (mode_enable_exclusive (enableLoop 0 1 initialState) 2 3 3 0 (by decide)).2.2.2⟩

/-- C5 counterexample: with point A already set to `1`, `setPointB 2`
records point B but leaves `abRepeatEnabled` `false` — the claim's
"auto-enables A/B repeat without a separate enable call" is false on the
store code (`setPointB` never touches `abRepeatEnabled`; the UI callers
invoke `enableABRepeat()` as a separate second call). -/
theorem setPointB_no_autoenable_cex :
    (setPointB (JSNum.num 2) (setPointA (JSNum.num 1) initialState)).pointB = some 2 ∧
    (setPointB (JSNum.num 2) (setPointA (JSNum.num 1) initialState)).abRepeatEnabled = false := by
  decide

/-- C5 (amended): with a valid point A set and `t` strictly greater than
it (and non-negative), `setPointB t` records `pointB = t` and changes
nothing else; in particular `abRepeatEnabled` is unchanged, and A/B repeat
still requires a separate `enableABRepeat` call. -/
theorem setPointB_records_point (s : MediaState) (a t : ℚ) (hA : s.pointA = some a)
    (h0 : ¬ t < 0) (hgt : a < t) :
    setPointB (JSNum.num t) s = { s with pointB := some t } ∧
    (setPointB (JSNum.num t) s).abRepeatEnabled = s.abRepeatEnabled := by
  constructor <;> simp [setPointB, hA, h0, hgt]

/-- C5 witness: `setPointB 2` after `setPointA 1` on the initial state. -/
theorem setPointB_records_point_witness :
    setPointB (JSNum.num 2) (setPointA (JSNum.num 1) initialState) =
      { setPointA (JSNum.num 1) initialState with pointB := some 2 } ∧
    (setPointB (JSNum.num 2) (setPointA (JSNum.num 1) initialState)).abRepeatEnabled =
      (setPointA (JSNum.num 1) initialState).abRepeatEnabled :=
  setPointB_records_point (setPointA (JSNum.num 1) initialState) 1 2
    (by decide) (by decide) (by decide)

/-- C6: invalid A/B point assignments are rejected in place.
`setPointA` with `NaN` or a negative time, and `setPointB` with `NaN`, a
negative time, no point A set, or a time not strictly greater than point
A, all leave the entire (modelled) store state unchanged; the operations
are total functions, so no exception is raised. -/
theorem point_setters_reject (s : MediaState) (t a : ℚ) :
    setPointA JSNum.nan s = s ∧
    (t < 0 → setPointA (JSNum.num t) s = s) ∧
    setPointB JSNum.nan s = s ∧
    (t < 0 → setPointB (JSNum.num t) s = s) ∧
    (s.pointA = none → setPointB (JSNum.num t) s = s) ∧
    (s.pointA = some a → t ≤ a → setPointB (JSNum.num t) s = s) := by
  refine ⟨rfl, fun hneg => by simp [setPointA, hneg], rfl,
    fun hneg => by simp [setPointB, hneg], fun hA => ?_, fun hA hle => ?_⟩
  · simp only [setPointB, hA]
    split <;> rfl
  · simp only [setPointB, hA]
    split
    · rfl
    · simp [not_lt.mpr hle]

/-- C6 witness: `setPointB 5` with no prior point A is rejected on the
initial state, and after `setPointA 5`, `setPointB 3` is rejected. -/
theorem point_setters_reject_witness :
    setPointB (JSNum.num 5) initialState = initialState ∧
    setPointB (JSNum.num 3) (setPointA (JSNum.num 5) initialState) =
      setPointA (JSNum.num 5) initialState ∧
    setPointA JSNum.nan initialState = initialState :=
  ⟨(point_setters_reject initialState 5 0).2.2.2.2.1 (by decide),
   (point_setters_reject (setPointA (JSNum.num 5) initialState) 3 5).2.2.2.2.2
     (by decide) (by decide),
   (point_setters_reject initialState 0 0).1⟩

/-- C10 counterexample: a manager state with one in-flight request whose
promise is unsettled; `terminate()` leaves that promise unsettled, not
rejected — the claim that termination rejects every still-pending request
is false on the code (`terminate` only clears the `pendingRequests` map
and never calls the stored `reject` closures). -/
theorem terminate_no_reject_cex :
    statusOf (terminate ⟨true, [0], [(0, PStatus.unsettled)], 1⟩) 0 =
      some PStatus.unsettled ∧
    ¬ statusOf (terminate ⟨true, [0], [(0, PStatus.unsettled)], 1⟩) 0 =
      some PStatus.rejected := by
  decide

/-- C10 (amended): `terminate()` releases the worker thread and clears the
pending-request table, but does not settle the pending promises: every
promise keeps exactly the status it had (a still-pending request is left
unsettled forever, since the cleared table also disables the 30-second
timeout rejection).  No request can resolve after termination: the
`result` handler and the timeout are no-ops on the terminated manager. -/
theorem terminate_behaviour (m : MgrState) (id : Nat) :
    (terminate m).workerAlive = false ∧
    (terminate m).pending = [] ∧
    statusOf (terminate m) id = statusOf m id ∧
    handleResult id (terminate m) = terminate m ∧
    timeoutFire id (terminate m) = terminate m := by
  refine ⟨rfl, rfl, rfl, ?_, ?_⟩ <;> simp [handleResult, timeoutFire, terminate]

/-- Key fields of the state produced by `startSegmentLoop`: segment loop
on, counters reset, loop interval installed, A/B repeat off. -/
theorem startSegmentLoop_fields (a b : ℚ) (c i : Int) (s : MediaState) :
    (startSegmentLoop a b c i s).segmentLoopEnabled = true ∧
    (startSegmentLoop a b c i s).segmentLoopTotal = c ∧
    (startSegmentLoop a b c i s).segmentLoopCurrent = 0 ∧
    (startSegmentLoop a b c i s).loopEnd = b ∧
    (startSegmentLoop a b c i s).abRepeatEnabled = false := by
  obtain ⟨ct, pl, subs, ai, awi, le, ls, lE, spe, spEnd, sle, slt, slc, sli, abr, pA, pB, she, spf⟩ := s
  cases le <;> cases spe <;> cases abr <;> cases she <;>
    simp [startSegmentLoop, disableLoop, disableABRepeat, disableShadowing]

/-- With A/B repeat disabled, the driver's boundary chain is the
segment-loop/simple-loop tail. -/
theorem loopControl_abOff (ap : Bool) (t : ℚ) (s : MediaState)
    (h : s.abRepeatEnabled = false) :
    loopControl ap t s = loopControl.loopControlTail ap t s := by
  rcases hA : s.pointA with _ | a <;> rcases hB : s.pointB with _ | b <;>
    simp [loopControl, hA, hB, h]

/-- Segment-loop boundary crossing with repetitions remaining: seek to the
loop start and increment the counter. -/
theorem loopControlTail_continue (ap : Bool) (t : ℚ) (s : MediaState)
    (hs : s.segmentLoopEnabled = true) (ht : s.loopEnd ≤ t)
    (hc : s.segmentLoopCurrent < s.segmentLoopTotal - 1) :
    loopControl.loopControlTail ap t s = (incrementLoopCount s, [Effect.seekTo s.loopStart]) := by
  simp [loopControl.loopControlTail, hs, ht, hc]

/-- Segment-loop boundary crossing with no repetition remaining and
auto-advance off: pause and clear segment-loop mode. -/
theorem loopControlTail_exit (t : ℚ) (s : MediaState)
    (hs : s.segmentLoopEnabled = true) (ht : s.loopEnd ≤ t)
    (hc : ¬ s.segmentLoopCurrent < s.segmentLoopTotal - 1) :
    loopControl.loopControlTail false t s = (stopSegmentLoop s, [Effect.pause]) := by
  simp [loopControl.loopControlTail, hs, ht, hc]

/-- C7: After `startSegmentLoop(start, end, 3, idx)` (which resets
`completedReps` to 0), the first two driver boundary crossings of the loop
end increment `segmentLoopCurrent` 0 → 1 → 2 while staying in segment-loop
mode, and the third crossing exits segment-loop mode (here with
auto-advance off: pause and clear) instead of incrementing to 3.  In
general the boundary handler exits exactly when
`completedReps ≥ totalReps - 1` (final conjunct). -/
theorem segment_loop_three_crossings (s : MediaState) (a b : ℚ) (idx : Int)
    (t1 t2 t3 : ℚ) (h1 : b ≤ t1) (h2 : b ≤ t2) (h3 : b ≤ t3) :
    (startSegmentLoop a b 3 idx s).segmentLoopCurrent = 0 ∧
    (loopControl false t1 (startSegmentLoop a b 3 idx s)).1.segmentLoopCurrent = 1 ∧
    (loopControl false t1 (startSegmentLoop a b 3 idx s)).1.segmentLoopEnabled = true ∧
    (loopControl false t2 (loopControl false t1 (startSegmentLoop a b 3 idx s)).1).1.segmentLoopCurrent = 2 ∧
    (loopControl false t2 (loopControl false t1 (startSegmentLoop a b 3 idx s)).1).1.segmentLoopEnabled = true ∧
    (loopControl false t3 (loopControl false t2 (loopControl false t1 (startSegmentLoop a b 3 idx s)).1).1).1.segmentLoopEnabled = false ∧
    (loopControl false t3 (loopControl false t2 (loopControl false t1 (startSegmentLoop a b 3 idx s)).1).1).1.segmentLoopCurrent = 0 ∧
    (∀ (s' : MediaState) (t : ℚ), s'.abRepeatEnabled = false →
      s'.segmentLoopEnabled = true → s'.loopEnd ≤ t →
      ((loopControl false t s').1.segmentLoopEnabled = false ↔
        s'.segmentLoopTotal - 1 ≤ s'.segmentLoopCurrent)) := by
  obtain ⟨he, htot, hcur, hend, hab⟩ := startSegmentLoop_fields a b 3 idx s
  set s0 := startSegmentLoop a b 3 idx s with hs0
  have e1 : loopControl false t1 s0 = (incrementLoopCount s0, [Effect.seekTo s0.loopStart]) := by
    rw [loopControl_abOff _ _ _ hab]
    exact loopControlTail_continue _ _ _ he (by rw [hend]; exact h1) (by rw [hcur, htot]; decide)
  have f1 : (incrementLoopCount s0).segmentLoopCurrent = 1 := by
    simp [incrementLoopCount, hcur]
  have f1e : (incrementLoopCount s0).segmentLoopEnabled = true := by
    simp [incrementLoopCount, he]
  have f1t : (incrementLoopCount s0).segmentLoopTotal = 3 := by
    simp [incrementLoopCount, htot]
  have f1end : (incrementLoopCount s0).loopEnd = b := by
    simp [incrementLoopCount, hend]
  have f1ab : (incrementLoopCount s0).abRepeatEnabled = false := by
    simp [incrementLoopCount, hab]
  have e2 : loopControl false t2 (incrementLoopCount s0) =
      (incrementLoopCount (incrementLoopCount s0),
        [Effect.seekTo (incrementLoopCount s0).loopStart]) := by
    rw [loopControl_abOff _ _ _ f1ab]
    exact loopControlTail_continue _ _ _ f1e (by rw [f1end]; exact h2)
      (by rw [f1, f1t]; decide)
  have f2 : (incrementLoopCount (incrementLoopCount s0)).segmentLoopCurrent = 2 := by
    simp [incrementLoopCount, hcur]
  have f2e : (incrementLoopCount (incrementLoopCount s0)).segmentLoopEnabled = true := by
    simp [incrementLoopCount, he]
  have f2t : (incrementLoopCount (incrementLoopCount s0)).segmentLoopTotal = 3 := by
    simp [incrementLoopCount, htot]
  have f2end : (incrementLoopCount (incrementLoopCount s0)).loopEnd = b := by
    simp [incrementLoopCount, hend]
  have f2ab : (incrementLoopCount (incrementLoopCount s0)).abRepeatEnabled = false := by
    simp [incrementLoopCount, hab]
  have e3 : loopControl false t3 (incrementLoopCount (incrementLoopCount s0)) =
      (stopSegmentLoop (incrementLoopCount (incrementLoopCount s0)), [Effect.pause]) := by
    rw [loopControl_abOff _ _ _ f2ab]
    exact loopControlTail_exit _ _ f2e (by rw [f2end]; exact h3) (by rw [f2, f2t]; decide)
  refine ⟨hcur, ?_, ?_, ?_, ?_, ?_, ?_, ?_⟩
  · rw [e1]; exact f1
  · rw [e1]; exact f1e
  · rw [e1, e2]; exact f2
  · rw [e1, e2]; exact f2e
  · rw [e1, e2, e3]; simp [stopSegmentLoop]
  · rw [e1, e2, e3]; simp [stopSegmentLoop]
  · intro s' t hab' he' ht'
    rw [loopControl_abOff _ _ _ hab']
    by_cases hc : s'.segmentLoopCurrent < s'.segmentLoopTotal - 1
    · rw [loopControlTail_continue _ _ _ he' ht' hc]
      simp [incrementLoopCount, he']
      omega
    · rw [loopControlTail_exit _ _ he' ht' hc]
      simp [stopSegmentLoop]
      omega

/-- C7 witness: a segment loop over `[0, 1]` with three repetitions on the
initial state, with each boundary crossing observed at time `1`. -/
theorem segment_loop_three_crossings_witness :
    (startSegmentLoop 0 1 3 0 initialState).segmentLoopCurrent = 0 ∧
    (loopControl false 1 (startSegmentLoop 0 1 3 0 initialState)).1.segmentLoopCurrent = 1 ∧
    (loopControl false 1 (startSegmentLoop 0 1 3 0 initialState)).1.segmentLoopEnabled = true ∧
    (loopControl false 1 (loopControl false 1 (startSegmentLoop 0 1 3 0 initialState)).1).1.segmentLoopCurrent = 2 ∧
    (loopControl false 1 (loopControl false 1 (startSegmentLoop 0 1 3 0 initialState)).1).1.segmentLoopEnabled = true ∧
    (loopControl false 1 (loopControl false 1 (loopControl false 1 (startSegmentLoop 0 1 3 0 initialState)).1).1).1.segmentLoopEnabled = false ∧
    (loopControl false 1 (loopControl false 1 (loopControl false 1 (startSegmentLoop 0 1 3 0 initialState)).1).1).1.segmentLoopCurrent = 0 ∧
    (∀ (s' : MediaState) (t : ℚ), s'.abRepeatEnabled = false →
      s'.segmentLoopEnabled = true → s'.loopEnd ≤ t →
      ((loopControl false t s').1.segmentLoopEnabled = false ↔
        s'.segmentLoopTotal - 1 ≤ s'.segmentLoopCurrent)) :=
  segment_loop_three_crossings initialState 0 1 0 1 1 1 (by decide) (by decide) (by decide)

/-- C8 counterexample: at `pauseFactor = 1.105` (within the code's
`|pauseFactor - 1.1| < 0.01` tolerance window but not equal to `1.1`) and
sentence duration `2 s`, the driver computes the adaptive-tier duration
`3200 ms`, while the claim's formula (`pauseFactor == 1.1` exactly) puts
`1.105` in the relaxed tier with `max(1500, 2210) = 2210 ms` — so the
claimed formula is false for this pauseFactor. -/
theorem shadowing_duration_cex :
    dynamicPauseDuration (mkRat 221 200) 2 ≠ specPauseDuration (mkRat 221 200) 2 := by
  norm_num [dynamicPauseDuration, specPauseDuration, jsAbs, jsMax, Rat.mkRat_eq_div]

/-- C8 (amended): when the driver's shadowing trigger fires, the scheduled
resume-timer duration is `dynamicPauseDuration pauseFactor d` with `d` the
sentence duration, where the adaptive tier applies when
`|pauseFactor - 1.1| < 0.01` (not only at exactly `1.1`):
`d*1000*1.1 + 1000` in that window; otherwise `max(1000, d*1000*pf)` for
`pf ≤ 1.0` and `max(1500, d*1000*pf)` for `pf > 1.0`.  The claim's three
examples hold: `(1.1, 2.0) ↦ 3200 ms`, `(0.8, 0.5) ↦ 1000 ms`,
`(2.0, 1.0) ↦ 2000 ms`. -/
theorem shadowing_duration_amended (isBlocked : Bool) (t : ℚ) (s : MediaState)
    (refs : ShadowRefs) (cue : Cue)
    (hb : isBlocked = false) (hen : s.shadowingEnabled = true)
    (h0 : 0 ≤ s.activeIndex) (hlen : s.activeIndex < (s.subtitles.length : Int))
    (hcue : listGetInt s.subtitles s.activeIndex = some cue)
    (hw : refs.isWaiting = false) (hl : refs.lastIndex ≠ s.activeIndex)
    (ht : cue.endTime - mkRat 1 10 ≤ t) :
    shadowingCheck isBlocked t s refs =
      some (dynamicPauseDuration s.shadowingPauseFactor (cue.endTime - cue.start)) ∧
    (∀ pf d : ℚ, jsAbs (pf - mkRat 11 10) < mkRat 1 100 →
      dynamicPauseDuration pf d = d * 1000 * mkRat 11 10 + 1000) ∧
    (∀ pf d : ℚ, ¬ jsAbs (pf - mkRat 11 10) < mkRat 1 100 → pf ≤ 1 →
      dynamicPauseDuration pf d = jsMax 1000 (d * 1000 * pf)) ∧
    (∀ pf d : ℚ, ¬ jsAbs (pf - mkRat 11 10) < mkRat 1 100 → 1 < pf →
      dynamicPauseDuration pf d = jsMax 1500 (d * 1000 * pf)) ∧
    dynamicPauseDuration (mkRat 11 10) 2 = 3200 ∧
    dynamicPauseDuration (mkRat 4 5) (mkRat 1 2) = 1000 ∧
    dynamicPauseDuration 2 1 = 2000 := by
  refine ⟨?_, ?_, ?_, ?_, ?_, ?_, ?_⟩
  · simp [shadowingCheck, hb, hen, h0, hlen, hcue, hw, hl, ht]
  · intro pf d h
    simp [dynamicPauseDuration, h]
  · intro pf d h hle
    simp [dynamicPauseDuration, h, hle]
  · intro pf d h hgt
    simp [dynamicPauseDuration, h, not_le.mpr hgt]
  · norm_num [dynamicPauseDuration, jsAbs, jsMax, Rat.mkRat_eq_div]
  · norm_num [dynamicPauseDuration, jsAbs, jsMax, Rat.mkRat_eq_div]
  · norm_num [dynamicPauseDuration, jsAbs, jsMax, Rat.mkRat_eq_div]

/-- C8 witness: the shadowing trigger on a one-cue state (`[1, 3]`,
`pauseFactor = 1.1`) observed at time `3`. -/
theorem shadowing_duration_amended_witness :
    shadowingCheck false 3
      { initialState with
        shadowingEnabled := true
        activeIndex := 0
        subtitles := [{ id := "a", index := 0, start := 1, endTime := 3, text := "x" }]
        shadowingPauseFactor := mkRat 11 10 }
      { isWaiting := false, lastIndex := -1 } =
      some (dynamicPauseDuration (mkRat 11 10) ((3 : ℚ) - 1)) ∧
    (∀ pf d : ℚ, jsAbs (pf - mkRat 11 10) < mkRat 1 100 →
      dynamicPauseDuration pf d = d * 1000 * mkRat 11 10 + 1000) ∧
    (∀ pf d : ℚ, ¬ jsAbs (pf - mkRat 11 10) < mkRat 1 100 → pf ≤ 1 →
      dynamicPauseDuration pf d = jsMax 1000 (d * 1000 * pf)) ∧
    (∀ pf d : ℚ, ¬ jsAbs (pf - mkRat 11 10) < mkRat 1 100 → 1 < pf →
      dynamicPauseDuration pf d = jsMax 1500 (d * 1000 * pf)) ∧
    dynamicPauseDuration (mkRat 11 10) 2 = 3200 ∧
    dynamicPauseDuration (mkRat 4 5) (mkRat 1 2) = 1000 ∧
    dynamicPauseDuration 2 1 = 2000 :=
  shadowing_duration_amended false 3
    { initialState with
      shadowingEnabled := true
      activeIndex := 0
      subtitles := [{ id := "a", index := 0, start := 1, endTime := 3, text := "x" }]
      shadowingPauseFactor := mkRat 11 10 }
    { isWaiting := false, lastIndex := -1 }
    { id := "a", index := 0, start := 1, endTime := 3, text := "x" }
    rfl rfl (by decide) (by decide) (by decide) rfl (by decide)
    (by rw [sub_le_self_iff]; decide)

/-- C4 counterexample: `parseSRT` happily emits a cue with
`end ≤ start` (a reversed time range passes straight through), and a block
whose text line is whitespace-only yields a cue with empty `text` — so the
claim that every cue of the parse output satisfies `end > start` and
non-empty text is false on the code. -/
theorem parse_invariant_cex :
    (∃ c ∈ parseSRT "1\n00:00:02,000 --> 00:00:01,000\nHi", c.endTime ≤ c.start) ∧
    (∃ c ∈ parseSRT "1\n00:00:01,000 --> 00:00:04,000\n ", c.text = "") := by
  decide

/-- C4 (amended): the parser does not itself enforce `end > start` or
non-empty `text`; the invariant holds exactly for outputs accepted by the
advisory `validate` check (which the code provides but does not apply at
parse time): whenever `validate` accepts `parseSRT text`, every cue of it
has `end > start` and non-empty `text`. -/
theorem parse_validate_invariant (text : String)
    (h : validate (parseSRT text) = true) :
    ∀ c ∈ parseSRT text, c.start < c.endTime ∧ c.text ≠ "" := by
  intro c hc
  unfold validate at h
  split at h
  · exact absurd h (by simp)
  · rw [List.all_eq_true] at h
    have hcue := h c hc
    simp only [Bool.and_eq_true, Bool.not_eq_true', decide_eq_false_iff_not, not_le,
      String.isEmpty_iff] at hcue
    refine ⟨hcue.1.2, fun he => ?_⟩
    rw [he] at hcue
    exact absurd hcue.2 (by decide)

/-- C4 witness: the spec's own example block parses to one cue accepted by
`validate`, whose invariants therefore hold. -/
theorem parse_validate_invariant_witness :
    validate (parseSRT "1\n00:00:01,000 --> 00:00:04,000\nHello") = true ∧
    ∀ c ∈ parseSRT "1\n00:00:01,000 --> 00:00:04,000\nHello",
      c.start < c.endTime ∧ c.text ≠ "" :=
  ⟨by decide, parse_validate_invariant _ (by decide)⟩

/-- In a cue list sorted by `start`, starts are monotone in the index. -/
theorem sorted_start_le {cues : List Cue} (h : SortedByStart cues) {i j : Nat} {ci cj : Cue}
    (hij : i ≤ j) (hi : cues.get? i = some ci) (hj : cues.get? j = some cj) :
    ci.start ≤ cj.start := by
  rcases Nat.lt_or_ge i j with hlt | hge
  · have hilen : i < cues.length := (List.get?_eq_some.mp hi).1
    have hjlen : j < cues.length := (List.get?_eq_some.mp hj).1
    have hr := List.pairwise_iff_get.mp h ⟨i, hilen⟩ ⟨j, hjlen⟩ hlt
    rw [List.get?_eq_get hilen, Option.some_inj] at hi
    rw [List.get?_eq_get hjlen, Option.some_inj] at hj
    rw [← hi, ← hj]
    exact hr
  · have : i = j := le_antisymm hij hge
    subst this
    rw [hi, Option.some_inj] at hj
    rw [hj]

/-- A well-formed cue list is sorted by `start`. -/
theorem valid_sorted {cues : List Cue} (h : ValidCues cues) : SortedByStart cues := by
  refine (h.2.imp_of_mem ?_)
  intro a b ha _ hab
  exact le_trans (le_of_lt (h.1 a ha)) hab

/-- In a well-formed cue list, an earlier cue ends before a later one
starts. -/
theorem valid_disjoint {cues : List Cue} (h : ValidCues cues) {i j : Nat} {ci cj : Cue}
    (hij : i < j) (hi : cues.get? i = some ci) (hj : cues.get? j = some cj) :
    ci.endTime ≤ cj.start := by
  have hilen : i < cues.length := (List.get?_eq_some.mp hi).1
  have hjlen : j < cues.length := (List.get?_eq_some.mp hj).1
  have hr := List.pairwise_iff_get.mp h.2 ⟨i, hilen⟩ ⟨j, hjlen⟩ hij
  rw [List.get?_eq_get hilen, Option.some_inj] at hi
  rw [List.get?_eq_get hjlen, Option.some_inj] at hj
  rw [← hi, ← hj]
  exact hr

/-- In a well-formed cue list, at most one cue contains a given time. -/
theorem contains_unique {cues : List Cue} {t : ℚ} (h : ValidCues cues) {i j : Nat}
    {ci cj : Cue} (hi : cues.get? i = some ci) (hj : cues.get? j = some cj)
    (hcti : ContainsTime ci t) (hctj : ContainsTime cj t) : i = j := by
  by_contra hne
  rcases Nat.lt_or_ge i j with hlt | hge
  · have := valid_disjoint h hlt hi hj
    exact absurd (lt_of_lt_of_le hcti.2 (le_trans this hctj.1)) (lt_irrefl t)
  · have hlt : j < i := lt_of_le_of_ne hge (fun e => hne e.symm)
    have := valid_disjoint h hlt hj hi
    exact absurd (lt_of_lt_of_le hctj.2 (le_trans this hcti.1)) (lt_irrefl t)

/-- Fall-through characterization of the binary-search loop when no cue
contains `t`: starting from a window whose left part is all `≤ t` and
whose right part is all `> t`, the loop returns `fin - 1` where `fin` is
the cut point — i.e. the index of the nearest preceding cue, or `-1`. -/
theorem binSearchGo_no_contain (cues : List Cue) (t : ℚ)
    (hsort : SortedByStart cues)
    (hnone : ∀ c ∈ cues, ¬ ContainsTime c t) :
    ∀ (fuel left rexcl : Nat), rexcl - left ≤ fuel → left ≤ rexcl → rexcl ≤ cues.length →
    (∀ j c, j < left → cues.get? j = some c → c.start ≤ t) →
    (∀ j c, rexcl ≤ j → cues.get? j = some c → t < c.start) →
    ∃ fin : Nat, fin ≤ cues.length ∧
      binSearchGo cues t fuel left rexcl ((left : Int) - 1) = (fin : Int) - 1 ∧
      (∀ j c, j < fin → cues.get? j = some c → c.start ≤ t) ∧
      (∀ j c, fin ≤ j → cues.get? j = some c → t < c.start) := by
  intro fuel
  induction fuel with
  | zero =>
    intro left rexcl hfuel hlr hrn hlow hhigh
    have he : rexcl = left := by omega
    subst he
    exact ⟨rexcl, hrn, by simp [binSearchGo], hlow, hhigh⟩
  | succ fuel ih =>
    intro left rexcl hfuel hlr hrn hlow hhigh
    by_cases hcond : left < rexcl
    case neg =>
      have he : rexcl = left := by omega
      subst he
      exact ⟨rexcl, hrn, by simp [binSearchGo, hcond], hlow, hhigh⟩
    case pos =>
      set mid := (left + rexcl - 1) / 2 with hmid
      have hmid1 : left ≤ mid := by
        rw [hmid, Nat.le_div_iff_mul_le (by omega : 0 < 2)]
        omega
      have hmid2 : mid < rexcl := by
        rw [hmid, Nat.div_lt_iff_lt_mul (by omega : 0 < 2)]
        omega
      have hmidlen : mid < cues.length := lt_of_lt_of_le hmid2 hrn
      obtain ⟨cue, hcue⟩ : ∃ cue, cues.get? mid = some cue :=
        ⟨cues.get ⟨mid, hmidlen⟩, List.get?_eq_get hmidlen⟩
      have hnc : ¬ (cue.start ≤ t ∧ t < cue.endTime) := hnone cue (List.get?_mem hcue)
      by_cases hlt : t < cue.start
      · have hupper : ∀ j c, mid ≤ j → cues.get? j = some c → t < c.start := by
          intro j c hj hc
          exact lt_of_lt_of_le hlt (sorted_start_le hsort hj hcue hc)
        obtain ⟨fin, h1, h2, h3, h4⟩ := ih left mid (by omega) (by omega)
          (le_of_lt hmidlen) hlow (fun j c hj => hupper j c hj)
        refine ⟨fin, h1, ?_, h3, h4⟩
        simp only [binSearchGo, if_pos hcond, ← hmid, hcue]
        rw [if_neg hnc, if_pos hlt]
        exact h2
      · have hsle : cue.start ≤ t := not_lt.mp hlt
        have hlow' : ∀ j c, j < mid + 1 → cues.get? j = some c → c.start ≤ t := by
          intro j c hj hc
          exact le_trans (sorted_start_le hsort (by omega) hc hcue) hsle
        obtain ⟨fin, h1, h2, h3, h4⟩ := ih (mid + 1) rexcl (by omega) (by omega) hrn hlow' hhigh
        refine ⟨fin, h1, ?_, h3, h4⟩
        simp only [binSearchGo, if_pos hcond, ← hmid, hcue]
        rw [if_neg hnc, if_neg hlt, if_pos hsle]
        have hcast : (mid : Int) = ((mid + 1 : Nat) : Int) - 1 := by push_cast; ring
        rw [hcast]
        exact h2

/-- When a well-formed cue list has a cue containing `t` inside the search
window, the binary-search loop returns its index, whatever the running
`result`. -/
theorem binSearchGo_finds (cues : List Cue) (t : ℚ) (hvalid : ValidCues cues)
    {i : Nat} {ci : Cue} (hi : cues.get? i = some ci) (hct : ContainsTime ci t) :
    ∀ (fuel left rexcl : Nat) (result : Int), rexcl - left ≤ fuel → left ≤ i → i < rexcl →
      rexcl ≤ cues.length →
      binSearchGo cues t fuel left rexcl result = (i : Int) := by
  have hsort := valid_sorted hvalid
  intro fuel
  induction fuel with
  | zero =>
    intro left rexcl result hfuel h1 h2 h3
    omega
  | succ fuel ih =>
    intro left rexcl result hfuel h1 h2 h3
    have hcond : left < rexcl := by omega
    set mid := (left + rexcl - 1) / 2 with hmid
    have hmid1 : left ≤ mid := by
      rw [hmid, Nat.le_div_iff_mul_le (by omega : 0 < 2)]
      omega
    have hmid2 : mid < rexcl := by
      rw [hmid, Nat.div_lt_iff_lt_mul (by omega : 0 < 2)]
      omega
    have hmidlen : mid < cues.length := lt_of_lt_of_le hmid2 h3
    obtain ⟨cue, hcue⟩ : ∃ cue, cues.get? mid = some cue :=
      ⟨cues.get ⟨mid, hmidlen⟩, List.get?_eq_get hmidlen⟩
    simp only [binSearchGo, if_pos hcond, ← hmid, hcue]
    by_cases hc : cue.start ≤ t ∧ t < cue.endTime
    · rw [if_pos hc]
      have he : mid = i := contains_unique hvalid hcue hi hc hct
      rw [he]
    · rw [if_neg hc]
      by_cases hlt : t < cue.start
      · rw [if_pos hlt]
        have hilt : i < mid := by
          by_contra hge
          have hmi : mid ≤ i := Nat.le_of_not_lt hge
          have := sorted_start_le hsort hmi hcue hi
          exact absurd (le_trans this hct.1) (not_le.mpr hlt)
        exact ih left mid result (by omega) h1 hilt (le_of_lt hmidlen)
      · rw [if_neg hlt]
        have hsle : cue.start ≤ t := not_lt.mp hlt
        have higt : mid < i := by
          rcases Nat.lt_or_ge mid i with hx | hx
          · exact hx
          · rcases Nat.lt_or_ge i mid with hx2 | hx2
            · have hd := valid_disjoint hvalid hx2 hi hcue
              exact absurd (lt_of_lt_of_le hct.2 (le_trans hd hsle)) (lt_irrefl t)
            · have he : i = mid := by omega
              subst he
              rw [hi, Option.some_inj] at hcue
              rw [← hcue] at hc
              exact absurd hct hc
        exact ih (mid + 1) rexcl _ (by omega) (by omega) h2 h3

/-- On a well-formed cue list with a cue containing `t`, the hint fast
path either falls through to the binary search or returns that cue's
index; in particular its gap short-circuit can never fire. -/
theorem hintLookup_finds (cues : List Cue) (t : ℚ) (hvalid : ValidCues cues)
    {i : Nat} {ci : Cue} (hi : cues.get? i = some ci) (hct : ContainsTime ci t)
    (hint : Int) :
    hintLookup cues t hint = none ∨ hintLookup cues t hint = some (i : Int) := by
  have hsort := valid_sorted hvalid
  unfold hintLookup
  by_cases hrange : 0 ≤ hint ∧ hint < (cues.length : Int)
  case neg =>
    rw [if_neg hrange]
    exact Or.inl rfl
  case pos =>
    rw [if_pos hrange]
    have hnn : ¬ hint < 0 := not_lt.mpr hrange.1
    have hlen : hint.toNat < cues.length := by
      have h2 := hrange.2
      omega
    obtain ⟨current, hcur⟩ : ∃ c, cues.get? hint.toNat = some c :=
      ⟨_, List.get?_eq_get hlen⟩
    rw [show listGetInt cues hint = some current from by
      simp only [listGetInt, if_neg hnn]; exact hcur]
    simp only []
    by_cases hcc : current.start ≤ t ∧ t < current.endTime
    · rw [if_pos hcc]
      right
      have he : hint.toNat = i := contains_unique hvalid hcur hi hcc hct
      congr 1
      omega
    · rw [if_neg hcc]
      by_cases hnext : hint + 1 < (cues.length : Int)
      case neg =>
        rw [if_neg hnext]
        exact Or.inl rfl
      case pos =>
        rw [if_pos hnext]
        have hnn2 : ¬ hint + 1 < 0 := by omega
        have hlen2 : (hint + 1).toNat < cues.length := by omega
        have htn : (hint + 1).toNat = hint.toNat + 1 := by omega
        obtain ⟨next, hnx⟩ : ∃ c, cues.get? (hint + 1).toNat = some c :=
          ⟨_, List.get?_eq_get hlen2⟩
        rw [show listGetInt cues (hint + 1) = some next from by
          simp only [listGetInt, if_neg hnn2]; exact hnx]
        simp only []
        by_cases hcn : next.start ≤ t ∧ t < next.endTime
        · rw [if_pos hcn]
          right
          have he : (hint + 1).toNat = i := contains_unique hvalid hnx hi hcn hct
          congr 1
          omega
        · rw [if_neg hcn]
          by_cases hgap : current.endTime ≤ t ∧ t < next.start
          · exfalso
            rw [htn] at hnx
            have hcur_mem : current ∈ cues := List.get?_mem hcur
            rcases Nat.lt_trichotomy i hint.toNat with hx | hx | hx
            · have hd := valid_disjoint hvalid hx hi hcur
              have hcontra : t < t := by
                calc t < ci.endTime := hct.2
                  _ ≤ current.start := hd
                  _ < current.endTime := hvalid.1 current hcur_mem
                  _ ≤ t := hgap.1
              exact lt_irrefl t hcontra
            · subst hx
              rw [hi, Option.some_inj] at hcur
              rw [← hcur] at hcc
              exact hcc hct
            · rcases Nat.lt_trichotomy i (hint.toNat + 1) with hy | hy | hy
              · omega
              · subst hy
                rw [hi, Option.some_inj] at hnx
                rw [← hnx] at hgap
                exact absurd hct.1 (not_le.mpr hgap.2)
              · have hs := sorted_start_le hsort (by omega : hint.toNat + 1 ≤ i) hnx hi
                exact absurd (le_trans hs hct.1) (not_le.mpr hgap.2)
          · rw [if_neg hgap]
            exact Or.inl rfl

/-- On a well-formed cue list with a cue containing `t`, `findIndexAtTime`
returns its index for every hint value. -/
theorem findIndexAtTime_finds_aux (cues : List Cue) (t : ℚ) (hvalid : ValidCues cues)
    {i : Nat} {ci : Cue} (hi : cues.get? i = some ci) (hct : ContainsTime ci t)
    (hint : Int) : findIndexAtTime cues t hint = (i : Int) := by
  have hlen : i < cues.length := (List.get?_eq_some.mp hi).1
  have hne : ¬ cues.length = 0 := by omega
  unfold findIndexAtTime
  rw [if_neg hne]
  rcases hintLookup_finds cues t hvalid hi hct hint with h | h
  · rw [h]
    unfold binSearchLoop
    exact binSearchGo_finds cues t hvalid hi hct (cues.length - 0) 0 cues.length (-1)
      (by omega) (by omega) hlen le_rfl
  · rw [h]

/-- C1 counterexample: at `t = 15`, in the gap between `cueA = [0, 10)`
and `cueB = [20, 30)`, no cue contains `t`; with hint `0` the gap
short-circuit returns `-1`, but the from-scratch call (`hint = -1`, the
binary-search fallback) returns `0` — the index of the nearest preceding,
non-containing cue — instead of the claimed `-1`. -/
theorem findIndexAtTime_gap_cex :
    (∀ c ∈ [cueA, cueB], ¬ ContainsTime c 15) ∧
    findIndexAtTime [cueA, cueB] 15 0 = -1 ∧
    findIndexAtTime [cueA, cueB] 15 (-1) = 0 := by
  decide

/-- C1 (amended): on a cue list sorted by `start`, when no cue contains
`t`, the from-scratch search (`hint = -1`, i.e. the binary-search
fallback) does guess a nearest cue: it returns the largest index whose cue
starts at or before `t`, and returns `-1` only when `t` precedes every
cue's start.  (The hint fast path still short-circuits to `-1` on its gap
check, as the counterexample shows.) -/
theorem findIndexAtTime_nearest (cues : List Cue) (t : ℚ)
    (hsort : SortedByStart cues) (hnone : ∀ c ∈ cues, ¬ ContainsTime c t) :
    (findIndexAtTime cues t (-1) = -1 ∧ ∀ c ∈ cues, t < c.start) ∨
    (∃ (i : Nat) (ci : Cue), i < cues.length ∧ cues.get? i = some ci ∧
      findIndexAtTime cues t (-1) = (i : Int) ∧ ci.start ≤ t ∧
      (∀ j cj, i < j → cues.get? j = some cj → t < cj.start)) := by
  by_cases hempty : cues.length = 0
  · left
    refine ⟨by simp [findIndexAtTime, hempty], ?_⟩
    intro c hc
    rw [List.length_eq_zero.mp hempty] at hc
    exact absurd hc (List.not_mem_nil c)
  · have hfa : findIndexAtTime cues t (-1) =
        binSearchGo cues t (cues.length - 0) 0 cues.length (((0 : Nat) : Int) - 1) := by
      unfold findIndexAtTime binSearchLoop
      rw [if_neg hempty]
      rw [show hintLookup cues t (-1) = none from by norm_num [hintLookup]]
      norm_num
    obtain ⟨fin, hfin_le, heq, hlow, hhigh⟩ :=
      binSearchGo_no_contain cues t hsort hnone (cues.length - 0) 0 cues.length
        (by omega) (by omega) le_rfl
        (fun j c hj _ => absurd hj (Nat.not_lt_zero j))
        (fun j c hj hc => absurd hc (by
          rw [List.get?_eq_none.mpr hj]
          exact fun h => Option.noConfusion h))
    rcases Nat.eq_zero_or_pos fin with hf0 | hfpos
    · left
      subst hf0
      refine ⟨?_, ?_⟩
      · rw [hfa, heq]
        norm_num
      · intro c hc
        obtain ⟨j, hj⟩ := List.mem_iff_get?.mp hc
        exact hhigh j c (by omega) hj
    · right
      obtain ⟨k, hk⟩ : ∃ k, fin = k + 1 := ⟨fin - 1, by omega⟩
      subst hk
      have hklen : k < cues.length := by omega
      obtain ⟨ci, hci⟩ : ∃ c, cues.get? k = some c := ⟨_, List.get?_eq_get hklen⟩
      refine ⟨k, ci, hklen, hci, ?_, hlow k ci (by omega) hci, ?_⟩
      · rw [hfa, heq]
        push_cast
        ring
      · intro j cj hj hcj
        exact hhigh j cj (by omega) hcj

/-- C1 witness: the amended characterization applied to the two-cue list
at `t = 15` inside the gap. -/
theorem findIndexAtTime_nearest_witness :
    (SortedByStart [cueA, cueB] ∧ ∀ c ∈ [cueA, cueB], ¬ ContainsTime c 15) ∧
    ((findIndexAtTime [cueA, cueB] 15 (-1) = -1 ∧ ∀ c ∈ [cueA, cueB], 15 < c.start) ∨
     (∃ (i : Nat) (ci : Cue), i < ([cueA, cueB] : List Cue).length ∧
        [cueA, cueB].get? i = some ci ∧
        findIndexAtTime [cueA, cueB] 15 (-1) = (i : Int) ∧ ci.start ≤ 15 ∧
        (∀ j cj, i < j → [cueA, cueB].get? j = some cj → 15 < cj.start))) :=
  ⟨⟨by decide, by decide⟩, findIndexAtTime_nearest [cueA, cueB] 15 (by decide) (by decide)⟩

/-- C2 counterexample: with `t = 15` in the gap between `cueA` and `cueB`,
the hint path (`hint = 0`) returns `-1` while the from-scratch search
(`hint = -1`) returns `0` — the two paths do not agree for all inputs. -/
theorem findIndexAtTime_hint_cex :
    findIndexAtTime [cueA, cueB] 15 0 ≠ findIndexAtTime [cueA, cueB] 15 (-1) := by
  decide

/-- C2 (amended): on a well-formed cue list (cues in order, pairwise
disjoint, `end > start`), whenever some cue contains `t`, the hint fast
path and the from-scratch binary search agree for every hint value
(in-range or not), both returning the containing cue's index.  When no
cue contains `t`, the paths may disagree (see the counterexample): the
gap short-circuit yields `-1` while the fallback yields the nearest
preceding index. -/
theorem findIndexAtTime_hint_agrees (cues : List Cue) (t : ℚ) (hvalid : ValidCues cues)
    (i : Nat) (ci : Cue) (hi : cues.get? i = some ci) (hct : ContainsTime ci t)
    (hint : Int) :
    findIndexAtTime cues t hint = findIndexAtTime cues t (-1) ∧
    findIndexAtTime cues t hint = (i : Int) := by
  constructor
  · rw [findIndexAtTime_finds_aux cues t hvalid hi hct hint,
      findIndexAtTime_finds_aux cues t hvalid hi hct (-1)]
  · exact findIndexAtTime_finds_aux cues t hvalid hi hct hint

/-- C2 witness: the agreement theorem applied to the two-cue list at
`t = 25` (inside `cueB`) with the out-of-range hint `7`. -/
theorem findIndexAtTime_hint_agrees_witness :
    (ValidCues [cueA, cueB] ∧ [cueA, cueB].get? 1 = some cueB ∧ ContainsTime cueB 25) ∧
    (findIndexAtTime [cueA, cueB] 25 7 = findIndexAtTime [cueA, cueB] 25 (-1) ∧
     findIndexAtTime [cueA, cueB] 25 7 = ((1 : Nat) : Int)) :=
  ⟨⟨by decide, by decide, by decide⟩,
   findIndexAtTime_hint_agrees [cueA, cueB] 25 (by decide) 1 cueB (by decide) (by decide) 7⟩

/-- Digit characters satisfy the `\d` class. -/
theorem digitChar_isDigit {d : Nat} (h : d < 10) : isDigitChar (Nat.digitChar d) = true := by
  interval_cases d <;> decide

/-- `digitVal` inverts `Nat.digitChar` on decimal digits. -/
theorem digitVal_digitChar {d : Nat} (h : d < 10) : digitVal (Nat.digitChar d) = d := by
  interval_cases d <;> decide

/-- A decimal digit character is not a comma. -/
theorem digitChar_ne_comma {d : Nat} (h : d < 10) : Nat.digitChar d ≠ ',' := by
  interval_cases d <;> decide

/-- `timestampVal` equals the source's expression
`hours*3600 + minutes*60 + seconds + milliseconds/1000`. -/
theorem timestampVal_eq (h m s ms : Nat) :
    timestampVal h m s ms = (h : ℚ) * 3600 + (m : ℚ) * 60 + (s : ℚ) + (ms : ℚ) / 1000 := by
  rw [timestampVal, Rat.mkRat_eq_div]
  push_cast
  ring

/-- `replace(',', '.')` on a rendered timestamp turns the SRT separator
into the VTT one and leaves a VTT timestamp unchanged. -/
theorem replaceFirstComma_renderTS (h m s ms : Nat) (hh : h < 100) (hm : m < 60)
    (hs : s < 60) (hms : ms < 1000) (fmt : TSFormat) :
    replaceFirstComma (renderTS fmt h m s ms) = renderTS TSFormat.vtt h m s ms := by
  have d1 : h / 10 < 10 := by omega
  have d2 : h % 10 < 10 := by omega
  have d3 : m / 10 < 10 := by omega
  have d4 : m % 10 < 10 := by omega
  have d5 : s / 10 < 10 := by omega
  have d6 : s % 10 < 10 := by omega
  have d7 : ms / 100 < 10 := by omega
  have d8 : ms / 10 % 10 < 10 := by omega
  have d9 : ms % 10 < 10 := by omega
  cases fmt <;>
    simp [renderTS, pad2, pad3, sepChar, replaceFirstComma,
      digitChar_ne_comma d1, digitChar_ne_comma d2, digitChar_ne_comma d3,
      digitChar_ne_comma d4, digitChar_ne_comma d5, digitChar_ne_comma d6,
      digitChar_ne_comma d7, digitChar_ne_comma d8, digitChar_ne_comma d9]

/-- Parsing a rendered well-formed timestamp recovers its field values. -/
theorem parseTimestamp_renderTS (fmt : TSFormat) (h m s ms : Nat) (hh : h < 100)
    (hm : m < 60) (hs : s < 60) (hms : ms < 1000) :
    parseTimestamp (renderTS fmt h m s ms) = timestampVal h m s ms := by
  have d1 : h / 10 < 10 := by omega
  have d2 : h % 10 < 10 := by omega
  have d3 : m / 10 < 10 := by omega
  have d4 : m % 10 < 10 := by omega
  have d5 : s / 10 < 10 := by omega
  have d6 : s % 10 < 10 := by omega
  have d7 : ms / 100 < 10 := by omega
  have d8 : ms / 10 % 10 < 10 := by omega
  have d9 : ms % 10 < 10 := by omega
  rw [parseTimestamp, replaceFirstComma_renderTS h m s ms hh hm hs hms fmt]
  have hmatch : searchTSDot (renderTS TSFormat.vtt h m s ms) =
      some (h, m, s, ms) := by
    show searchTSDot
      (pad2 h ++ ':' :: pad2 m ++ ':' :: pad2 s ++ sepChar TSFormat.vtt :: pad3 ms) =
      some (h, m, s, ms)
    simp only [pad2, pad3, sepChar, List.cons_append, List.nil_append]
    rw [searchTSDot]
    rw [show matchTSDotAt (Nat.digitChar (h / 10) :: Nat.digitChar (h % 10) :: ':' ::
        Nat.digitChar (m / 10) :: Nat.digitChar (m % 10) :: ':' ::
        Nat.digitChar (s / 10) :: Nat.digitChar (s % 10) :: '.' ::
        Nat.digitChar (ms / 100) :: Nat.digitChar (ms / 10 % 10) :: Nat.digitChar (ms % 10) :: []) =
      some (10 * digitVal (Nat.digitChar (h / 10)) + digitVal (Nat.digitChar (h % 10)),
            10 * digitVal (Nat.digitChar (m / 10)) + digitVal (Nat.digitChar (m % 10)),
            10 * digitVal (Nat.digitChar (s / 10)) + digitVal (Nat.digitChar (s % 10)),
            100 * digitVal (Nat.digitChar (ms / 100)) +
              10 * digitVal (Nat.digitChar (ms / 10 % 10)) + digitVal (Nat.digitChar (ms % 10)))
      from by
        rw [matchTSDotAt]
        rw [if_pos]
        refine ⟨digitChar_isDigit d1, digitChar_isDigit d2, rfl, digitChar_isDigit d3,
          digitChar_isDigit d4, rfl, digitChar_isDigit d5, digitChar_isDigit d6, rfl,
          digitChar_isDigit d7, digitChar_isDigit d8, digitChar_isDigit d9⟩]
    rw [digitVal_digitChar d1, digitVal_digitChar d2, digitVal_digitChar d3,
      digitVal_digitChar d4, digitVal_digitChar d5, digitVal_digitChar d6,
      digitVal_digitChar d7, digitVal_digitChar d8, digitVal_digitChar d9]
    simp only []
    have e1 : 10 * (h / 10) + h % 10 = h := by omega
    have e2 : 10 * (m / 10) + m % 10 = m := by omega
    have e3 : 10 * (s / 10) + s % 10 = s := by omega
    have e4 : 100 * (ms / 100) + 10 * (ms / 10 % 10) + ms % 10 = ms := by omega
    rw [e1, e2, e3, e4]
  rw [hmatch]

/-- `Rat.floor` agrees with the floor of the ordered field `ℚ`. -/
theorem ratFloor_eq (q : ℚ) : Rat.floor q = ⌊q⌋ := rfl

/-- Floor of a natural number plus a fractional remainder. -/
theorem floor_natCast_add_fract (n : Nat) (r : ℚ) (h0 : 0 ≤ r) (h1 : r < 1) :
    ⌊(n : ℚ) + r⌋ = (n : ℤ) := by
  rw [Int.floor_eq_iff]
  constructor
  · push_cast
    linarith
  · push_cast
    linarith

/-- Formatting the total-seconds value of a well-formed timestamp renders
its original field values. -/
theorem formatTimestamp_timestampVal (fmt : TSFormat) (h m s ms : Nat) (_hh : h < 100)
    (hm : m < 60) (hs : s < 60) (hms : ms < 1000) :
    formatTimestamp (timestampVal h m s ms) fmt = renderTS fmt h m s ms := by
  rw [timestampVal_eq]
  set q : ℚ := (h : ℚ) * 3600 + (m : ℚ) * 60 + (s : ℚ) + (ms : ℚ) / 1000 with hq
  have hmq : (m : ℚ) ≤ 59 := by exact_mod_cast Nat.le_of_lt_succ hm
  have hsq : (s : ℚ) ≤ 59 := by exact_mod_cast Nat.le_of_lt_succ hs
  have hms0 : (0 : ℚ) ≤ (ms : ℚ) / 1000 := by positivity
  have hms1 : (ms : ℚ) / 1000 < 1 := by
    rw [div_lt_one (by norm_num)]
    exact_mod_cast hms
  have hm0 : (0 : ℚ) ≤ (m : ℚ) := by positivity
  have hs0 : (0 : ℚ) ≤ (s : ℚ) := by positivity
  have hh0 : (0 : ℚ) ≤ (h : ℚ) := by positivity
  have hq0 : 0 ≤ q := by rw [hq]; positivity
  have e1 : q / 3600 = (h : ℚ) + ((m : ℚ) * 60 + (s : ℚ) + (ms : ℚ) / 1000) / 3600 := by
    rw [hq]; ring
  have f1 : ⌊q / 3600⌋ = (h : ℤ) := by
    rw [e1]
    exact floor_natCast_add_fract h _ (by positivity) (by
      rw [div_lt_one (by norm_num)]
      linarith)
  have ht1 : jsTrunc (q / 3600) = (h : ℤ) := by
    rw [jsTrunc, if_neg (not_lt.mpr (by positivity)), ratFloor_eq, f1]
  have e2 : jsMod q 3600 = (m : ℚ) * 60 + (s : ℚ) + (ms : ℚ) / 1000 := by
    rw [jsMod, ht1, hq]
    push_cast
    ring
  have e3 : jsMod q 3600 / 60 = (m : ℚ) + ((s : ℚ) + (ms : ℚ) / 1000) / 60 := by
    rw [e2]; ring
  have f2 : ⌊jsMod q 3600 / 60⌋ = (m : ℤ) := by
    rw [e3]
    exact floor_natCast_add_fract m _ (by positivity) (by
      rw [div_lt_one (by norm_num)]
      linarith)
  have e4 : q / 60 = ((60 * h + m : Nat) : ℚ) + ((s : ℚ) + (ms : ℚ) / 1000) / 60 := by
    rw [hq]
    push_cast
    ring
  have f3 : ⌊q / 60⌋ = ((60 * h + m : Nat) : ℤ) := by
    rw [e4]
    exact floor_natCast_add_fract _ _ (by positivity) (by
      rw [div_lt_one (by norm_num)]
      linarith)
  have ht3 : jsTrunc (q / 60) = ((60 * h + m : Nat) : ℤ) := by
    rw [jsTrunc, if_neg (not_lt.mpr (by positivity)), ratFloor_eq, f3]
  have e5 : jsMod q 60 = (s : ℚ) + (ms : ℚ) / 1000 := by
    rw [jsMod, ht3, hq]
    push_cast
    ring
  have f4 : ⌊jsMod q 60⌋ = (s : ℤ) := by
    rw [e5]
    exact floor_natCast_add_fract s _ hms0 hms1
  have e6 : q / 1 = ((3600 * h + 60 * m + s : Nat) : ℚ) + (ms : ℚ) / 1000 := by
    rw [hq]
    push_cast
    ring
  have f5 : ⌊q / 1⌋ = ((3600 * h + 60 * m + s : Nat) : ℤ) := by
    rw [e6]
    exact floor_natCast_add_fract _ _ hms0 hms1
  have ht5 : jsTrunc (q / 1) = ((3600 * h + 60 * m + s : Nat) : ℤ) := by
    rw [jsTrunc, if_neg (not_lt.mpr (by positivity)), ratFloor_eq, f5]
  have e7 : jsMod q 1 * 1000 = (ms : ℚ) := by
    rw [jsMod, ht5, hq]
    push_cast
    ring
  have f6 : ⌊jsMod q 1 * 1000⌋ = (ms : ℤ) := by
    rw [e7]
    exact Int.floor_natCast ms
  show pad2 (Rat.floor (q / 3600)).toNat ++ ':' ::
      pad2 (Rat.floor (jsMod q 3600 / 60)).toNat ++ ':' ::
      pad2 (Rat.floor (jsMod q 60)).toNat ++ sepChar fmt ::
      pad3 (Rat.floor (jsMod q 1 * 1000)).toNat = renderTS fmt h m s ms
  rw [ratFloor_eq, ratFloor_eq, ratFloor_eq, ratFloor_eq, f1, f2, f4, f6,
    Int.toNat_natCast, Int.toNat_natCast, Int.toNat_natCast, Int.toNat_natCast]
  rfl

/-- C9: For every well-formed timestamp string in `HH:MM:SS(.|,)mmm` form
(i.e. `renderTS fmt h m s ms` with `h < 100`, `m < 60`, `s < 60`,
`ms < 1000`), formatting the parsed value with the matching separator
format reproduces the string exactly — `formatTimestamp (parseTimestamp s)
= s`, millisecond-exact in the rational model. -/
theorem timestamp_roundtrip (fmt : TSFormat) (h m s ms : Nat)
    (hh : h < 100) (hm : m < 60) (hs : s < 60) (hms : ms < 1000) :
    formatTimestamp (parseTimestamp (renderTS fmt h m s ms)) fmt = renderTS fmt h m s ms := by
  rw [parseTimestamp_renderTS fmt h m s ms hh hm hs hms,
    formatTimestamp_timestampVal fmt h m s ms hh hm hs hms]

/-- C9 witness: the round-trip at `12:34:56,789` (SRT) and `12:34:56.789`
(VTT). -/
theorem timestamp_roundtrip_witness :
    ((12 : Nat) < 100 ∧ (34 : Nat) < 60 ∧ (56 : Nat) < 60 ∧ (789 : Nat) < 1000) ∧
    formatTimestamp (parseTimestamp (renderTS TSFormat.srt 12 34 56 789)) TSFormat.srt =
      renderTS TSFormat.srt 12 34 56 789 ∧
    formatTimestamp (parseTimestamp (renderTS TSFormat.vtt 12 34 56 789)) TSFormat.vtt =
      renderTS TSFormat.vtt 12 34 56 789 :=
  ⟨⟨by decide, by decide, by decide, by decide⟩,
   timestamp_roundtrip TSFormat.srt 12 34 56 789 (by decide) (by decide) (by decide) (by decide),
   timestamp_roundtrip TSFormat.vtt 12 34 56 789 (by decide) (by decide) (by decide) (by decide)⟩

end LearnEnglish
